import Mathlib

/-!
# Verification of the calculator engine in `src/main.cpp`

This file is a shallow embedding of the calculator state machine of
`src/main.cpp` (an Arduino four-function calculator) together with proofs
about it.

Modelling choices:

* The engine state (globals `currentInput`, `previousInput`, `operation`,
  `newCalculation`, `src/main.cpp` lines 68-72) becomes the structure
  `Calc.CalcState`.  Arduino `String` buffers are embedded as `List Char`;
  `operation` is a `Char` with the C++ null character `0` meaning
  "no pending operator", exactly as in the source.
* Arduino 32-bit `float` arithmetic is embedded as exact rational
  arithmetic.  Rationals are represented by the structure `Calc.Frac`
  (an integer numerator and a positive natural denominator, not
  necessarily reduced) so that every operation is structurally recursive
  and kernel-reducible; `Calc.Frac.toRat` maps a representative to the
  mathematical rational it denotes, and homomorphism lemmas connect the
  operations to `ℚ`.
* `String::toFloat` (C `atof`) is embedded as `Calc.parseF`: an optional
  sign, an integer digit run, and an optional `'.'` followed by a
  fraction digit run; anything else stops the parse, and the empty parse
  yields `0`.
* `String(result)` (Arduino's float-to-text conversion, which renders
  with exactly two decimal places, rounding half away from zero via
  `dtostrf`) is embedded as `Calc.fmtFixed2`.  The trailing-zero
  stripping of lines 204-205 is `Calc.stripZeros`.

The event handlers `handleKeyInput`, `setOperation` and `calculateResult`
(`src/main.cpp` lines 130-211) are translated branch by branch.
-/

namespace Calc

/-- The C++ null character: the value of the global `operation` when no
operator is pending (`char operation = 0;`, line 71 of `src/main.cpp`). -/
def opNone : Char := Char.ofNat 0

/-- The engine state: the four globals of `src/main.cpp` lines 69-72
(`String currentInput`, `String previousInput`, `char operation`,
`bool newCalculation`). -/
structure CalcState where
  currentInput : List Char
  previousInput : List Char
  operation : Char
  newCalculation : Bool
deriving DecidableEq

/-- The state after startup: both buffers empty, no operator, flag clear
(initializers on lines 69-72 of `src/main.cpp`). -/
def initState : CalcState := ⟨[], [], opNone, false⟩

/-- An exact rational number, represented by an integer numerator and a
positive natural denominator (not necessarily reduced).  This embeds the
Arduino `float` values flowing through `calculateResult`. -/
structure Frac where
  num : ℤ
  den : ℕ
  den_pos : 0 < den

/-- The rational value denoted by a `Frac` representative. -/
def Frac.toRat (f : Frac) : ℚ := (f.num : ℚ) / (f.den : ℚ)

/-- The rational zero, also the fallback value of `calculateResult`
(`float result = 0;`, line 190 of `src/main.cpp`). -/
def Frac.zero : Frac := ⟨0, 1, Nat.one_pos⟩

/-- Embeds `num1 + num2` (line 193 of `src/main.cpp`). -/
def Frac.add (x y : Frac) : Frac :=
  ⟨x.num * y.den + y.num * x.den, x.den * y.den, Nat.mul_pos x.den_pos y.den_pos⟩

/-- Embeds `num1 - num2` (line 194 of `src/main.cpp`). -/
def Frac.sub (x y : Frac) : Frac :=
  ⟨x.num * y.den - y.num * x.den, x.den * y.den, Nat.mul_pos x.den_pos y.den_pos⟩

/-- Embeds `num1 * num2` (line 195 of `src/main.cpp`). -/
def Frac.mul (x y : Frac) : Frac :=
  ⟨x.num * y.num, x.den * y.den, Nat.mul_pos x.den_pos y.den_pos⟩

/-- Negation of a representative. -/
def Frac.neg (x : Frac) : Frac := ⟨-x.num, x.den, x.den_pos⟩

/-- Embeds `num1 / num2` (line 197 of `src/main.cpp`), keeping the
denominator positive by moving the divisor's sign to the numerator.  The
final branch is junk for a zero divisor; `calculateResult` only divides
after checking `num2 != 0`. -/
def Frac.div (x y : Frac) : Frac :=
  if h : 0 < y.num then
    ⟨x.num * y.den, x.den * y.num.toNat, Nat.mul_pos x.den_pos (by omega)⟩
  else if h2 : y.num < 0 then
    ⟨-(x.num * y.den), x.den * (-y.num).toNat, Nat.mul_pos x.den_pos (by omega)⟩
  else Frac.zero

/-- Consumes a run of decimal digits, accumulating their value
(the integer part of C `atof`). -/
def parseDigitsAcc : List Char → ℕ → ℕ × List Char
  | [], acc => (acc, [])
  | c :: cs, acc =>
    if '0' ≤ c ∧ c ≤ '9' then parseDigitsAcc cs (10 * acc + (c.toNat - '0'.toNat))
    else (acc, c :: cs)

/-- Consumes a run of decimal digits after the point, accumulating their
value and their count (the fraction part of C `atof`). -/
def parseFracAcc : List Char → ℕ → ℕ → ℕ × ℕ
  | [], acc, cnt => (acc, cnt)
  | c :: cs, acc, cnt =>
    if '0' ≤ c ∧ c ≤ '9' then parseFracAcc cs (10 * acc + (c.toNat - '0'.toNat)) (cnt + 1)
    else (acc, cnt)

/-- Unsigned part of `String::toFloat` / C `atof`: digits, then optionally
`'.'` and more digits; an empty digit run contributes `0`. -/
def parseUnsignedF (cs : List Char) : Frac :=
  let (ip, rest) := parseDigitsAcc cs 0
  match rest with
  | '.' :: rest2 =>
    let (fp, cnt) := parseFracAcc rest2 0 0
    ⟨(ip * 10 ^ cnt + fp : ℕ), 10 ^ cnt, Nat.pow_pos (by norm_num)⟩
  | _ => ⟨(ip : ℕ), 1, Nat.one_pos⟩

/-- Embeds `String::toFloat` (lines 188-189 of `src/main.cpp`): an
optional sign followed by the unsigned numeral; a string that parses to
nothing yields `0`. -/
def parseF : List Char → Frac
  | '-' :: rest => Frac.neg (parseUnsignedF rest)
  | '+' :: rest => parseUnsignedF rest
  | cs => parseUnsignedF cs

/-- Embeds Arduino `String(result)` for a nonnegative value: `dtostrf`
with two decimal places, i.e. the decimal digits of
`floor(100 * value + 1/2)` split as `intpart.fracpart` with the fraction
zero-padded to two digits.  For `f.num ≥ 0` the computed `n` equals
`floor(100 * f.toRat + 1/2)`. -/
def fmtFixed2Nonneg (f : Frac) : List Char :=
  let n : ℕ := (200 * f.num + (f.den : ℤ)).toNat / (2 * f.den)
  Nat.toDigits 10 (n / 100) ++ ['.'] ++
    (if n % 100 < 10 then ['0'] else []) ++ Nat.toDigits 10 (n % 100)

/-- Embeds Arduino `String(result)` (line 203 of `src/main.cpp`): a
negative value is rendered as `'-'` followed by the rendering of its
magnitude, matching `dtostrf`'s round-half-away-from-zero. -/
def fmtFixed2 (f : Frac) : List Char :=
  if f.num < 0 then '-' :: fmtFixed2Nonneg (Frac.neg f) else fmtFixed2Nonneg f

/-- `List` counterpart of `String::remove(length - n)`: drop the last `n`
characters. -/
def dropRightL (l : List Char) (n : ℕ) : List Char := l.take (l.length - n)

/-- Embeds lines 204-205 of `src/main.cpp`: strip a trailing `".00"`,
else a trailing `".0"`, else leave the text unchanged. -/
def stripZeros (l : List Char) : List Char :=
  if ['.', '0', '0'].isSuffixOf l then dropRightL l 3
  else if ['.', '0'].isSuffixOf l then dropRightL l 2
  else l

/-- Embeds the `switch(operation)` of lines 192-200 of `src/main.cpp`:
the four arithmetic cases, division guarded by `num2 != 0` with fallback
`0`, and the initializer `result = 0` for any other operator. -/
def applyOp (op : Char) (a b : Frac) : Frac :=
  if op = '+' then Frac.add a b
  else if op = '-' then Frac.sub a b
  else if op = '*' then Frac.mul a b
  else if op = '/' then (if b.num ≠ 0 then Frac.div a b else Frac.zero)
  else Frac.zero

/-- Embeds `calculateResult` (lines 186-211 of `src/main.cpp`): when both
operands are present and an operator is pending, parse the operands,
apply the operator, format the result into `currentInput`, clear
`previousInput` and `operation`, and set `newCalculation`; otherwise do
nothing. -/
def calculateResult (s : CalcState) : CalcState :=
  if s.previousInput.length > 0 ∧ s.currentInput.length > 0 ∧ s.operation ≠ opNone then
    let num1 := parseF s.previousInput
    let num2 := parseF s.currentInput
    let result := applyOp s.operation num1 num2
    { currentInput := stripZeros (fmtFixed2 result)
      previousInput := []
      operation := opNone
      newCalculation := true }
  else s

/-- Embeds `setOperation` (lines 167-184 of `src/main.cpp`): ignored when
both operands are empty; when the current operand is non-empty it is
moved to `previousInput`, first collapsing a chained expression through
`calculateResult`; finally the operator is stored and `newCalculation`
cleared. -/
def setOperation (op : Char) (s : CalcState) : CalcState :=
  if s.currentInput.length > 0 ∨ s.previousInput.length > 0 then
    let s1 :=
      if s.currentInput.length > 0 then
        if s.previousInput.length > 0 ∧ s.operation ≠ opNone then
          let s2 := calculateResult s
          { s2 with previousInput := s2.currentInput, currentInput := [] }
        else
          { s with previousInput := s.currentInput, currentInput := [] }
      else s
    { s1 with operation := op, newCalculation := false }
  else s

/-- Embeds `handleKeyInput` (lines 130-165 of `src/main.cpp`): the
`newCalculation` reset on a digit after a result, the ten-digit cap on
digit entry, the four operator keys, `'#'` for equals, `'*'` for clear,
and a silent fall-through for any other key. -/
def handleKeyInput (key : Char) (s : CalcState) : CalcState :=
  let s1 :=
    if s.newCalculation ∧ key.isDigit then
      { s with currentInput := [], previousInput := [], operation := opNone,
               newCalculation := false }
    else s
  if '0' ≤ key ∧ key ≤ '9' then
    if s1.currentInput.length < 10 then
      { s1 with currentInput := s1.currentInput ++ [key] }
    else s1
  else if key = 'A' then setOperation '+' s1
  else if key = 'B' then setOperation '-' s1
  else if key = 'C' then setOperation '*' s1
  else if key = 'D' then setOperation '/' s1
  else if key = '#' then calculateResult s1
  else if key = '*' then
    { s1 with currentInput := [], previousInput := [], operation := opNone }
  else s1

/-- Folds a key sequence through the engine, as the polling loop of
lines 121-128 of `src/main.cpp` does one key at a time. -/
def runKeys (ks : List Char) (s : CalcState) : CalcState :=
  ks.foldl (fun st k => handleKeyInput k st) s

theorem Frac.den_cast_ne_zero (f : Frac) : (f.den : ℚ) ≠ 0 :=
  Nat.cast_ne_zero.mpr (Nat.pos_iff_ne_zero.mp f.den_pos)

theorem Frac.den_cast_pos (f : Frac) : (0 : ℚ) < (f.den : ℚ) := by
  exact_mod_cast f.den_pos

theorem Frac.toRat_zero : Frac.zero.toRat = 0 := by
  simp [Frac.toRat, Frac.zero]

theorem Frac.toRat_add (x y : Frac) : (Frac.add x y).toRat = x.toRat + y.toRat := by
  have hx := x.den_cast_ne_zero
  have hy := y.den_cast_ne_zero
  simp only [Frac.toRat, Frac.add]
  push_cast
  field_simp

theorem Frac.toRat_sub (x y : Frac) : (Frac.sub x y).toRat = x.toRat - y.toRat := by
  have hx := x.den_cast_ne_zero
  have hy := y.den_cast_ne_zero
  simp only [Frac.toRat, Frac.sub]
  push_cast
  field_simp
  ring

theorem Frac.toRat_mul (x y : Frac) : (Frac.mul x y).toRat = x.toRat * y.toRat := by
  have hx := x.den_cast_ne_zero
  have hy := y.den_cast_ne_zero
  simp only [Frac.toRat, Frac.mul]
  push_cast
  field_simp

theorem Frac.toRat_neg (x : Frac) : (Frac.neg x).toRat = -x.toRat := by
  simp [Frac.toRat, Frac.neg, neg_div]

theorem Frac.toRat_div (x y : Frac) (h : y.num ≠ 0) :
    (Frac.div x y).toRat = x.toRat / y.toRat := by
  have hx := x.den_cast_ne_zero
  have hy := y.den_cast_ne_zero
  have hyq : (y.num : ℚ) ≠ 0 := Int.cast_ne_zero.mpr h
  unfold Frac.div
  rcases lt_trichotomy y.num 0 with hneg | hzero | hpos
  · rw [dif_neg (by omega), dif_pos hneg]
    have ht : (((-y.num).toNat : ℤ) : ℚ) = -(y.num : ℚ) := by
      have := Int.toNat_of_nonneg (by omega : (0 : ℤ) ≤ -y.num)
      push_cast [this]
      simp
    simp only [Frac.toRat]
    push_cast
    rw [show (((-y.num).toNat : ℕ) : ℚ) = -(y.num : ℚ) by exact_mod_cast ht]
    field_simp
  · exact absurd hzero h
  · rw [dif_pos hpos]
    have ht : ((y.num.toNat : ℕ) : ℚ) = (y.num : ℚ) := by
      exact_mod_cast Int.toNat_of_nonneg hpos.le
    simp only [Frac.toRat]
    push_cast
    rw [ht]
    field_simp

theorem Frac.toRat_eq_zero_iff (f : Frac) : f.toRat = 0 ↔ f.num = 0 := by
  rw [Frac.toRat, div_eq_zero_iff]
  simp [f.den_cast_ne_zero]

theorem Frac.toRat_neg_iff (f : Frac) : f.toRat < 0 ↔ f.num < 0 := by
  rw [Frac.toRat, div_neg_iff]
  have hd := f.den_cast_pos
  constructor
  · rintro (⟨-, h2⟩ | ⟨h1, -⟩)
    · exact absurd h2 (not_lt.mpr hd.le)
    · exact_mod_cast h1
  · intro h
    exact Or.inr ⟨by exact_mod_cast h, hd⟩

theorem Frac.toRat_nonneg_iff (f : Frac) : 0 ≤ f.toRat ↔ 0 ≤ f.num := by
  rw [← not_lt, Frac.toRat_neg_iff, not_lt]

theorem Frac.toRat_lt_iff (x y : Frac) :
    x.toRat < y.toRat ↔ x.num * y.den < y.num * x.den := by
  rw [Frac.toRat, Frac.toRat, div_lt_div_iff₀ x.den_cast_pos y.den_cast_pos]
  constructor
  · intro h
    exact_mod_cast h
  · intro h
    exact_mod_cast h

theorem isDigit_iff (c : Char) : c.isDigit = true ↔ ('0' ≤ c ∧ c ≤ '9') := by
  rw [Char.isDigit, Bool.and_eq_true, decide_eq_true_iff, decide_eq_true_iff]
  exact Iff.rfl

theorem toDigitsCore_length_le (b fuel n : ℕ) (ds : List Char) :
    ds.length ≤ (Nat.toDigitsCore b fuel n ds).length := by
  induction fuel generalizing n ds with
  | zero => simp [Nat.toDigitsCore]
  | succ fuel ih =>
    simp only [Nat.toDigitsCore]
    split
    · simp
    · exact le_trans (by simp) (ih (n / b) _)

theorem toDigits_length_pos (n : ℕ) : 0 < (Nat.toDigits 10 n).length := by
  rw [Nat.toDigits]
  simp only [Nat.toDigitsCore]
  split
  · simp
  · exact lt_of_lt_of_le (by simp) (toDigitsCore_length_le 10 n (n / 10) _)

theorem toDigits_of_lt_ten (n : ℕ) (h : n < 10) : Nat.toDigits 10 n = [Nat.digitChar n] := by
  rw [Nat.toDigits]
  simp only [Nat.toDigitsCore]
  rw [if_pos (Nat.div_eq_of_lt h), Nat.mod_eq_of_lt h]

theorem toDigits_length_two (n : ℕ) (h10 : 10 ≤ n) (h100 : n < 100) :
    (Nat.toDigits 10 n).length = 2 := by
  obtain ⟨m, rfl⟩ : ∃ m, n = m + 10 := ⟨n - 10, by omega⟩
  rw [Nat.toDigits]
  simp only [Nat.toDigitsCore]
  rw [if_neg (by omega), if_pos (by omega)]
  rfl

theorem stripZeros_length_lb (l : List Char) : l.length - 3 ≤ (stripZeros l).length := by
  unfold stripZeros dropRightL
  split
  · simp only [List.length_take]
    omega
  · split
    · simp only [List.length_take]
      omega
    · omega

theorem stripZeros_ne_nil (l : List Char) (h : 4 ≤ l.length) : stripZeros l ≠ [] := by
  apply List.ne_nil_of_length_pos
  have := stripZeros_length_lb l
  omega

theorem stripZeros_cons (c : Char) (l : List Char) (h : 3 ≤ l.length) :
    ∃ t, stripZeros (c :: l) = c :: t := by
  unfold stripZeros dropRightL
  split
  · refine ⟨(l.take (l.length - 3)), ?_⟩
    rw [show (c :: l).length - 3 = (l.length - 3) + 1 by simp; omega]
    rfl
  · split
    · refine ⟨(l.take (l.length - 2)), ?_⟩
      rw [show (c :: l).length - 2 = (l.length - 2) + 1 by simp; omega]
      rfl
    · exact ⟨l, rfl⟩

theorem fmtFixed2Nonneg_length (f : Frac) : 4 ≤ (fmtFixed2Nonneg f).length := by
  simp only [fmtFixed2Nonneg]
  set n : ℕ := (200 * f.num + (f.den : ℤ)).toNat / (2 * f.den) with hn
  have hD := toDigits_length_pos (n / 100)
  by_cases h : n % 100 < 10
  · rw [if_pos h, toDigits_of_lt_ten (n % 100) h]
    simp only [List.length_append, List.length_cons, List.length_nil]
    omega
  · rw [if_neg h]
    have h2 : (Nat.toDigits 10 (n % 100)).length = 2 :=
      toDigits_length_two (n % 100) (by omega) (Nat.mod_lt _ (by norm_num))
    simp only [List.length_append, List.length_cons, List.length_nil, h2]
    omega

theorem fmtFixed2_length (f : Frac) : 4 ≤ (fmtFixed2 f).length := by
  unfold fmtFixed2
  split
  · simp only [List.length_cons]
    have := fmtFixed2Nonneg_length (Frac.neg f)
    omega
  · exact fmtFixed2Nonneg_length f

theorem fmtStrip_ne_nil (f : Frac) : stripZeros (fmtFixed2 f) ≠ [] :=
  stripZeros_ne_nil _ (fmtFixed2_length f)

theorem fmtNonneg_floor (f : Frac) (h : 0 ≤ f.num) :
    (200 * f.num + (f.den : ℤ)).toNat / (2 * f.den) = (⌊f.toRat * 100 + 1/2⌋).toNat := by
  have hdz : (0 : ℤ) < (f.den : ℤ) := by exact_mod_cast f.den_pos
  have hden := f.den_cast_ne_zero
  set a : ℕ := (200 * f.num + (f.den : ℤ)).toNat with ha
  have haz : (a : ℤ) = 200 * f.num + (f.den : ℤ) := Int.toNat_of_nonneg (by omega)
  have key : f.toRat * 100 + 1/2 = (a : ℚ) / ((2 * f.den : ℕ) : ℚ) := by
    have ha2 : (a : ℚ) = 200 * (f.num : ℚ) + (f.den : ℚ) := by exact_mod_cast haz
    rw [Frac.toRat, ha2]
    push_cast
    field_simp
    ring
  rw [key, Rat.floor_natCast_div_natCast]
  exact (Int.toNat_ofNat _).symm

theorem fmtFixed2Nonneg_congr (f g : Frac) (hf : 0 ≤ f.num) (hg : 0 ≤ g.num)
    (h : f.toRat = g.toRat) : fmtFixed2Nonneg f = fmtFixed2Nonneg g := by
  simp only [fmtFixed2Nonneg]
  rw [fmtNonneg_floor f hf, fmtNonneg_floor g hg, h]

theorem fmtFixed2_congr (f g : Frac) (h : f.toRat = g.toRat) :
    fmtFixed2 f = fmtFixed2 g := by
  unfold fmtFixed2
  by_cases hf : f.num < 0
  · have hg : g.num < 0 := (Frac.toRat_neg_iff g).mp (h ▸ (Frac.toRat_neg_iff f).mpr hf)
    rw [if_pos hf, if_pos hg]
    have hval : (Frac.neg f).toRat = (Frac.neg g).toRat := by
      rw [Frac.toRat_neg, Frac.toRat_neg, h]
    rw [fmtFixed2Nonneg_congr (Frac.neg f) (Frac.neg g)
      (by simp only [Frac.neg]; omega) (by simp only [Frac.neg]; omega) hval]
  · have hg : ¬g.num < 0 := fun hgneg =>
      hf ((Frac.toRat_neg_iff f).mp (h.symm ▸ (Frac.toRat_neg_iff g).mpr hgneg))
    rw [if_neg hf, if_neg hg]
    exact fmtFixed2Nonneg_congr f g (le_of_not_lt hf) (le_of_not_lt hg) h

theorem stripZeros_fmt_nat (f : Frac) (n : ℕ) (h : f.toRat = (n : ℚ)) :
    stripZeros (fmtFixed2 f) = Nat.toDigits 10 n := by
  have hden := f.den_cast_ne_zero
  have hnum : f.num = (n : ℤ) * f.den := by
    have hq : (f.num : ℚ) = (n : ℚ) * (f.den : ℚ) := by
      rw [Frac.toRat] at h
      field_simp at h
      exact h
    exact_mod_cast hq
  have hpos : ¬f.num < 0 := by
    rw [hnum]
    exact not_lt.mpr (by positivity)
  unfold fmtFixed2
  rw [if_neg hpos]
  simp only [fmtFixed2Nonneg]
  have hN : (200 * f.num + (f.den : ℤ)).toNat / (2 * f.den) = 100 * n := by
    rw [hnum]
    have hc : 200 * ((n : ℤ) * f.den) + (f.den : ℤ) = ((f.den * (200 * n + 1) : ℕ) : ℤ) := by
      push_cast
      ring
    rw [hc, Int.toNat_ofNat, show 2 * f.den = f.den * 2 by ring,
      Nat.mul_div_mul_left _ _ f.den_pos]
    omega
  rw [hN, show 100 * n / 100 = n by omega, show 100 * n % 100 = 0 by omega,
    if_pos (by norm_num), show Nat.toDigits 10 0 = ['0'] from rfl]
  have happ : Nat.toDigits 10 n ++ ['.'] ++ ['0'] ++ ['0'] =
      Nat.toDigits 10 n ++ ['.', '0', '0'] := by
    simp
  rw [happ]
  unfold stripZeros
  rw [if_pos (List.isSuffixOf_iff_suffix.mpr (List.suffix_append _ _))]
  unfold dropRightL
  rw [List.length_append, show (['.', '0', '0'] : List Char).length = 3 from rfl,
    show (Nat.toDigits 10 n).length + 3 - 3 = (Nat.toDigits 10 n).length by omega]
  exact List.take_left _ _

theorem calculateResult_eq (s : CalcState)
    (h1 : s.previousInput ≠ []) (h2 : s.currentInput ≠ []) (h3 : s.operation ≠ opNone) :
    calculateResult s =
      ⟨stripZeros (fmtFixed2
          (applyOp s.operation (parseF s.previousInput) (parseF s.currentInput))),
        [], opNone, true⟩ := by
  unfold calculateResult
  rw [if_pos ⟨List.length_pos.mpr h1, List.length_pos.mpr h2, h3⟩]

theorem calculateResult_cur_ne_nil (s : CalcState)
    (h1 : s.previousInput ≠ []) (h2 : s.currentInput ≠ []) (h3 : s.operation ≠ opNone) :
    (calculateResult s).currentInput ≠ [] := by
  rw [calculateResult_eq s h1 h2 h3]
  exact fmtStrip_ne_nil _

/-- The invariant of claim C5: no pending operator exactly when the
pending operand buffer is empty. -/
def Inv (s : CalcState) : Prop := s.operation = opNone ↔ s.previousInput = []

theorem inv_init : Inv initState := ⟨fun _ => rfl, fun _ => rfl⟩

theorem calculateResult_inv (s : CalcState) (h : Inv s) : Inv (calculateResult s) := by
  unfold calculateResult
  split
  · exact ⟨fun _ => rfl, fun _ => rfl⟩
  · exact h

theorem setOperation_inv (op : Char) (hop : op ≠ opNone) (s : CalcState) (h : Inv s) :
    Inv (setOperation op s) := by
  unfold setOperation
  split
  case isTrue hguard =>
    apply iff_of_false hop
    split
    case isTrue hcur =>
      split
      case isTrue hchain =>
        exact calculateResult_cur_ne_nil s (List.length_pos.mp hchain.1)
          (List.length_pos.mp hcur) hchain.2
      case isFalse hnc =>
        exact List.length_pos.mp hcur
    case isFalse hcur =>
      rcases hguard with hg | hg
      · exact absurd hg hcur
      · exact List.length_pos.mp hg
  case isFalse hguard =>
    exact h

theorem handleKeyInput_inv (k : Char) (s : CalcState) (h : Inv s) :
    Inv (handleKeyInput k s) := by
  unfold handleKeyInput
  have hinv1 : Inv (if s.newCalculation ∧ k.isDigit then
      ({ s with currentInput := [], previousInput := [], operation := opNone,
                newCalculation := false } : CalcState) else s) := by
    split
    · exact ⟨fun _ => rfl, fun _ => rfl⟩
    · exact h
  generalize hS : (if s.newCalculation ∧ k.isDigit then
      ({ s with currentInput := [], previousInput := [], operation := opNone,
                newCalculation := false } : CalcState) else s) = s1 at hinv1 ⊢
  dsimp only
  split
  · split
    · exact hinv1
    · exact hinv1
  · split
    · exact setOperation_inv '+' (by decide) s1 hinv1
    · split
      · exact setOperation_inv '-' (by decide) s1 hinv1
      · split
        · exact setOperation_inv '*' (by decide) s1 hinv1
        · split
          · exact setOperation_inv '/' (by decide) s1 hinv1
          · split
            · exact calculateResult_inv s1 hinv1
            · split
              · exact ⟨fun _ => rfl, fun _ => rfl⟩
              · exact hinv1

theorem runKeys_inv (ks : List Char) (s : CalcState) (h : Inv s) : Inv (runKeys ks s) := by
  induction ks generalizing s with
  | nil => exact h
  | cons k ks ih => exact ih (handleKeyInput k s) (handleKeyInput_inv k s h)

/-- Claim C1: for operand texts with a pending operator, the equals event
computes add as `a + b`, subtract as `a - b`, multiply as `a * b`, and
divide as `a / b` when `b` is non-zero; when `b` parses to zero, divide
yields the defined result `0`, so `"5" setOperator(divide) "0" equals`
leaves `currentOperand` equal to `"0"`.  The stored text is the
formatting of any representative of the mathematical result. -/
theorem C1_equals_operator_semantics :
    (∀ (s : CalcState) (r : Frac),
      s.previousInput ≠ [] → s.currentInput ≠ [] →
      ((s.operation = '+' →
          r.toRat = (parseF s.previousInput).toRat + (parseF s.currentInput).toRat →
          (calculateResult s).currentInput = stripZeros (fmtFixed2 r)) ∧
       (s.operation = '-' →
          r.toRat = (parseF s.previousInput).toRat - (parseF s.currentInput).toRat →
          (calculateResult s).currentInput = stripZeros (fmtFixed2 r)) ∧
       (s.operation = '*' →
          r.toRat = (parseF s.previousInput).toRat * (parseF s.currentInput).toRat →
          (calculateResult s).currentInput = stripZeros (fmtFixed2 r)) ∧
       (s.operation = '/' → (parseF s.currentInput).toRat ≠ 0 →
          r.toRat = (parseF s.previousInput).toRat / (parseF s.currentInput).toRat →
          (calculateResult s).currentInput = stripZeros (fmtFixed2 r)) ∧
       (s.operation = '/' → (parseF s.currentInput).toRat = 0 → r.toRat = 0 →
          (calculateResult s).currentInput = stripZeros (fmtFixed2 r)))) ∧
    (runKeys ['5', 'D', '0', '#'] initState).currentInput = ['0'] := by
  refine ⟨?_, by decide⟩
  intro s r h1 h2
  refine ⟨?_, ?_, ?_, ?_, ?_⟩
  · intro hop hval
    rw [calculateResult_eq s h1 h2 (by rw [hop]; decide), hop]
    dsimp only
    refine congrArg stripZeros (fmtFixed2_congr _ _ ?_)
    rw [show applyOp '+' (parseF s.previousInput) (parseF s.currentInput)
        = Frac.add (parseF s.previousInput) (parseF s.currentInput) from rfl]
    rw [Frac.toRat_add, hval]
  · intro hop hval
    rw [calculateResult_eq s h1 h2 (by rw [hop]; decide), hop]
    dsimp only
    refine congrArg stripZeros (fmtFixed2_congr _ _ ?_)
    rw [show applyOp '-' (parseF s.previousInput) (parseF s.currentInput)
        = Frac.sub (parseF s.previousInput) (parseF s.currentInput) from rfl]
    rw [Frac.toRat_sub, hval]
  · intro hop hval
    rw [calculateResult_eq s h1 h2 (by rw [hop]; decide), hop]
    dsimp only
    refine congrArg stripZeros (fmtFixed2_congr _ _ ?_)
    rw [show applyOp '*' (parseF s.previousInput) (parseF s.currentInput)
        = Frac.mul (parseF s.previousInput) (parseF s.currentInput) from rfl]
    rw [Frac.toRat_mul, hval]
  · intro hop hz hval
    rw [calculateResult_eq s h1 h2 (by rw [hop]; decide), hop]
    dsimp only
    refine congrArg stripZeros (fmtFixed2_congr _ _ ?_)
    have hb : (parseF s.currentInput).num ≠ 0 := fun h0 =>
      hz ((Frac.toRat_eq_zero_iff _).mpr h0)
    rw [show applyOp '/' (parseF s.previousInput) (parseF s.currentInput)
        = if (parseF s.currentInput).num ≠ 0 then
            Frac.div (parseF s.previousInput) (parseF s.currentInput)
          else Frac.zero from rfl]
    rw [if_pos hb, Frac.toRat_div _ _ hb, hval]
  · intro hop hz hval
    rw [calculateResult_eq s h1 h2 (by rw [hop]; decide), hop]
    dsimp only
    refine congrArg stripZeros (fmtFixed2_congr _ _ ?_)
    have hb : (parseF s.currentInput).num = 0 := (Frac.toRat_eq_zero_iff _).mp hz
    rw [show applyOp '/' (parseF s.previousInput) (parseF s.currentInput)
        = if (parseF s.currentInput).num ≠ 0 then
            Frac.div (parseF s.previousInput) (parseF s.currentInput)
          else Frac.zero from rfl]
    rw [if_neg (fun hn => hn hb), Frac.toRat_zero, hval]

theorem C1_witness :
    (calculateResult ⟨['3'], ['1', '2'], '+', false⟩).currentInput =
      stripZeros (fmtFixed2 (Frac.add (parseF ['1', '2']) (parseF ['3']))) ∧
    (calculateResult ⟨['0'], ['5'], '/', false⟩).currentInput =
      stripZeros (fmtFixed2 Frac.zero) :=
  ⟨(C1_equals_operator_semantics.1 ⟨['3'], ['1', '2'], '+', false⟩
      (Frac.add (parseF ['1', '2']) (parseF ['3'])) (by decide) (by decide)).1 rfl
      (Frac.toRat_add (parseF ['1', '2']) (parseF ['3'])),
   (C1_equals_operator_semantics.1 ⟨['0'], ['5'], '/', false⟩ Frac.zero
      (by decide) (by decide)).2.2.2.2 rfl
      ((Frac.toRat_eq_zero_iff _).mpr (by decide)) Frac.toRat_zero⟩

/-- Claim C2 is refuted: the result of a successful equals event is NOT
rendered with full precision and then stripped of a trailing `".00"` or
`".0"` — it is rendered with exactly two decimal places (Arduino
`String(float)` defaults to two decimals), so `"10" setOperator(divide)
"4" equals` yields `"2.50"`, not the claimed `"2.5"`. -/
theorem C2_counterexample :
    (runKeys ['1', '0', 'D', '4', '#'] initState).currentInput = ['2', '.', '5', '0'] ∧
    (runKeys ['1', '0', 'D', '4', '#'] initState).currentInput ≠ ['2', '.', '5'] := by
  decide

/-- Claim C2 (amended): for every successful equals event, the numeric
result is rendered as text with exactly two decimal places and then a
trailing `".00"` or `".0"` suffix is stripped, so integral results carry
no decimal decoration; `"12" setOperator(add) "3" equals` yields
`currentOperand` `"15"` (not `"15.0"`), and `"10" setOperator(divide)
"4" equals` yields `currentOperand` `"2.50"`. -/
theorem C2_two_decimal_formatting :
    (∀ s : CalcState, s.previousInput ≠ [] → s.currentInput ≠ [] →
        s.operation ≠ opNone →
        (calculateResult s).currentInput =
          stripZeros (fmtFixed2
            (applyOp s.operation (parseF s.previousInput) (parseF s.currentInput)))) ∧
    (∀ (f : Frac) (n : ℕ), f.toRat = (n : ℚ) →
        stripZeros (fmtFixed2 f) = Nat.toDigits 10 n) ∧
    (runKeys ['1', '2', 'A', '3', '#'] initState).currentInput = ['1', '5'] ∧
    (runKeys ['1', '0', 'D', '4', '#'] initState).currentInput = ['2', '.', '5', '0'] := by
  refine ⟨?_, stripZeros_fmt_nat, by decide, by decide⟩
  intro s h1 h2 h3
  rw [calculateResult_eq s h1 h2 h3]

theorem C2_witness :
    (calculateResult ⟨['4'], ['1', '0'], '/', false⟩).currentInput =
      stripZeros (fmtFixed2 (applyOp '/' (parseF ['1', '0']) (parseF ['4']))) ∧
    stripZeros (fmtFixed2 (parseF ['1', '5'])) = Nat.toDigits 10 15 :=
  ⟨C2_two_decimal_formatting.1 ⟨['4'], ['1', '0'], '/', false⟩
      (by decide) (by decide) (by decide),
   C2_two_decimal_formatting.2.1 (parseF ['1', '5']) 15
      (by rw [show parseF ['1', '5'] = (⟨(15 : ℤ), 1, Nat.one_pos⟩ : Frac) from rfl]
          simp [Frac.toRat])⟩

/-- Claim C3: a `setOperator(op)` event arriving while both operands are
non-empty and an operator is pending first performs the equals
evaluation, then moves the resulting text into `pendingOperand` and
clears `currentOperand`, then sets `pendingOperator` to `op`; the
sequence `"1" setOperator(add) "2" setOperator(add) "3" equals`
collapses `1+2` to `3` before the second add and ends with
`currentOperand` `"6"`. -/
theorem C3_chaining_collapses :
    (∀ (s : CalcState) (op : Char),
      s.currentInput ≠ [] → s.previousInput ≠ [] → s.operation ≠ opNone →
      setOperation op s = ⟨[], (calculateResult s).currentInput, op, false⟩) ∧
    (runKeys ['1', 'A', '2', 'A'] initState).previousInput = ['3'] ∧
    (runKeys ['1', 'A', '2', 'A', '3', '#'] initState).currentInput = ['6'] := by
  refine ⟨?_, by decide, by decide⟩
  intro s op h1 h2 h3
  unfold setOperation
  rw [if_pos (show s.currentInput.length > 0 ∨ s.previousInput.length > 0 from
    Or.inl (List.length_pos.mpr h1))]
  dsimp only
  rw [if_pos (List.length_pos.mpr h1),
    if_pos (show s.previousInput.length > 0 ∧ s.operation ≠ opNone from
      ⟨List.length_pos.mpr h2, h3⟩)]

theorem C3_witness :
    setOperation '+' ⟨['2'], ['1'], '+', false⟩ =
      ⟨[], (calculateResult ⟨['2'], ['1'], '+', false⟩).currentInput, '+', false⟩ :=
  C3_chaining_collapses.1 ⟨['2'], ['1'], '+', false⟩ '+'
    (by decide) (by decide) (by decide)

/-- Claim C4: a digit event arriving while `awaitingNewEntry` is set
first clears all four state components and then appends the digit, so
`currentOperand` becomes exactly the one-character string of that digit
and the flag is consumed. -/
theorem C4_digit_after_result_resets :
    ∀ (s : CalcState) (d : Char), '0' ≤ d → d ≤ '9' → s.newCalculation = true →
      handleKeyInput d s = ⟨[d], [], opNone, false⟩ := by
  intro s d h0 h9 hnc
  unfold handleKeyInput
  dsimp only
  rw [if_pos (show s.newCalculation = true ∧ d.isDigit = true from
        ⟨hnc, (isDigit_iff d).mpr ⟨h0, h9⟩⟩),
    if_pos (show ('0' ≤ d ∧ d ≤ '9') from ⟨h0, h9⟩)]
  rfl

theorem C4_witness :
    handleKeyInput '7' ⟨['9'], ['8'], '+', true⟩ = ⟨['7'], [], opNone, false⟩ :=
  C4_digit_after_result_resets ⟨['9'], ['8'], '+', true⟩ '7' (by decide) (by decide) rfl

/-- Claim C5: in every state reachable from the initial state by any key
sequence, the pending operator is the null operator exactly when the
pending operand buffer is empty. -/
theorem C5_operator_iff_pending_operand :
    ∀ ks : List Char,
      ((runKeys ks initState).operation = opNone ↔
        (runKeys ks initState).previousInput = []) :=
  fun ks => runKeys_inv ks initState inv_init

set_option maxRecDepth 8000 in
/-- Claim C6 is refuted: the ten-character cap holds only for digit
entry, not for every reachable state — the result of an equals event is
stored into `currentOperand` without any cap, so adding two ten-digit
operands leaves an eleven-character result in `currentOperand`. -/
theorem C6_counterexample :
    10 < (runKeys ['9', '9', '9', '9', '9', '9', '9', '9', '9', '9', 'A',
      '9', '9', '9', '9', '9', '9', '9', '9', '9', '9', '#'] initState).currentInput.length := by
  decide

/-- Claim C6 (amended): digit entry never grows `currentOperand` past the
ten-character cap — a digit key arriving when `currentOperand` already
holds ten or more characters (and no result is pending) is silently
dropped, and typing more than ten digits from the initial state leaves
`currentOperand` truncated at the first ten; results of an equals event,
however, are stored without any cap and may exceed ten characters. -/
theorem C6_digit_cap :
    (∀ (s : CalcState) (d : Char), '0' ≤ d → d ≤ '9' → s.newCalculation = false →
        10 ≤ s.currentInput.length → handleKeyInput d s = s) ∧
    (runKeys ['1', '2', '3', '4', '5', '6', '7', '8', '9', '0', '1', '2']
        initState).currentInput = ['1', '2', '3', '4', '5', '6', '7', '8', '9', '0'] := by
  refine ⟨?_, by decide⟩
  intro s d h0 h9 hnc hlen
  unfold handleKeyInput
  dsimp only
  rw [if_neg (show ¬(s.newCalculation = true ∧ d.isDigit = true) from
      fun hc => by rw [hnc] at hc; exact Bool.noConfusion hc.1),
    if_pos (show ('0' ≤ d ∧ d ≤ '9') from ⟨h0, h9⟩),
    if_neg (show ¬s.currentInput.length < 10 by omega)]

theorem C6_witness :
    handleKeyInput '5' ⟨['0', '1', '2', '3', '4', '5', '6', '7', '8', '9'], [], opNone, false⟩ =
      ⟨['0', '1', '2', '3', '4', '5', '6', '7', '8', '9'], [], opNone, false⟩ :=
  C6_digit_cap.1 ⟨['0', '1', '2', '3', '4', '5', '6', '7', '8', '9'], [], opNone, false⟩ '5'
    (by decide) (by decide) rfl (by decide)

/-- Claim C7: an equals event arriving when the pending operand is empty,
or the current operand is empty, or no operator is pending, is a silent
no-op: the state is exactly as before. -/
theorem C7_equals_noop_guard :
    ∀ s : CalcState,
      s.previousInput = [] ∨ s.currentInput = [] ∨ s.operation = opNone →
      handleKeyInput '#' s = s := by
  intro s h
  unfold handleKeyInput
  dsimp only
  rw [if_neg (show ¬(s.newCalculation = true ∧ ('#' : Char).isDigit = true) from
      fun hc => absurd hc.2 (by decide)),
    if_neg (show ¬('0' ≤ ('#' : Char) ∧ ('#' : Char) ≤ '9') by decide),
    if_neg (show ('#' : Char) ≠ 'A' by decide),
    if_neg (show ('#' : Char) ≠ 'B' by decide),
    if_neg (show ('#' : Char) ≠ 'C' by decide),
    if_neg (show ('#' : Char) ≠ 'D' by decide),
    if_pos (show ('#' : Char) = '#' from rfl)]
  unfold calculateResult
  rw [if_neg (show ¬(s.previousInput.length > 0 ∧ s.currentInput.length > 0 ∧
      s.operation ≠ opNone) from ?_)]
  rintro ⟨hp, hc, ho⟩
  rcases h with h | h | h
  · rw [h] at hp
    exact absurd hp (by decide)
  · rw [h] at hc
    exact absurd hc (by decide)
  · exact ho h

theorem C7_witness :
    handleKeyInput '#' ⟨['5'], [], opNone, false⟩ = ⟨['5'], [], opNone, false⟩ :=
  C7_equals_noop_guard ⟨['5'], [], opNone, false⟩ (Or.inl rfl)

/-- Claim C8: the clear event unconditionally empties both operands and
the pending operator while leaving `awaitingNewEntry` unchanged, and a
digit pressed after clear produces the same state as that digit pressed
on a freshly initialized engine. -/
theorem C8_clear_resets :
    ∀ s : CalcState,
      handleKeyInput '*' s = ⟨[], [], opNone, s.newCalculation⟩ ∧
      (∀ d : Char, '0' ≤ d → d ≤ '9' →
        handleKeyInput d (handleKeyInput '*' s) = handleKeyInput d initState) := by
  intro s
  have hclear : handleKeyInput '*' s = ⟨[], [], opNone, s.newCalculation⟩ := by
    unfold handleKeyInput
    dsimp only
    rw [if_neg (show ¬(s.newCalculation = true ∧ ('*' : Char).isDigit = true) from
        fun hc => absurd hc.2 (by decide)),
      if_neg (show ¬('0' ≤ ('*' : Char) ∧ ('*' : Char) ≤ '9') by decide),
      if_neg (show ('*' : Char) ≠ 'A' by decide),
      if_neg (show ('*' : Char) ≠ 'B' by decide),
      if_neg (show ('*' : Char) ≠ 'C' by decide),
      if_neg (show ('*' : Char) ≠ 'D' by decide),
      if_neg (show ('*' : Char) ≠ '#' by decide),
      if_pos (show ('*' : Char) = '*' from rfl)]
  refine ⟨hclear, ?_⟩
  intro d h0 h9
  have key : ∀ b : Bool, handleKeyInput d ⟨[], [], opNone, b⟩ = ⟨[d], [], opNone, false⟩ := by
    intro b
    cases b
    · unfold handleKeyInput
      dsimp only
      rw [if_neg (show ¬((false : Bool) = true ∧ d.isDigit = true) from
          fun hc => Bool.noConfusion hc.1),
        if_pos (show ('0' ≤ d ∧ d ≤ '9') from ⟨h0, h9⟩)]
      rfl
    · unfold handleKeyInput
      dsimp only
      rw [if_pos (show (true : Bool) = true ∧ d.isDigit = true from
          ⟨rfl, (isDigit_iff d).mpr ⟨h0, h9⟩⟩),
        if_pos (show ('0' ≤ d ∧ d ≤ '9') from ⟨h0, h9⟩)]
      rfl
  rw [hclear, key s.newCalculation]
  exact (key false).symm

theorem C8_witness :
    handleKeyInput '*' ⟨['1'], ['2'], '+', true⟩ = ⟨[], [], opNone, true⟩ ∧
    handleKeyInput '3' (handleKeyInput '*' ⟨['1'], ['2'], '+', true⟩) =
      handleKeyInput '3' initState :=
  ⟨(C8_clear_resets ⟨['1'], ['2'], '+', true⟩).1,
   (C8_clear_resets ⟨['1'], ['2'], '+', true⟩).2 '3' (by decide) (by decide)⟩

/-- Claim C9: a key that is none of the recognized symbols (a digit, one
of the four operator keys, equals, clear) leaves all four state
components unchanged. -/
theorem C9_unknown_key_noop :
    ∀ (s : CalcState) (k : Char),
      ¬('0' ≤ k ∧ k ≤ '9') → k ≠ 'A' → k ≠ 'B' → k ≠ 'C' → k ≠ 'D' →
      k ≠ '#' → k ≠ '*' → handleKeyInput k s = s := by
  intro s k hd hA hB hC hD hH hS
  unfold handleKeyInput
  dsimp only
  rw [if_neg (show ¬(s.newCalculation = true ∧ k.isDigit = true) from
      fun hc => hd ((isDigit_iff k).mp hc.2)),
    if_neg hd, if_neg hA, if_neg hB, if_neg hC, if_neg hD, if_neg hH, if_neg hS]

theorem C9_witness :
    handleKeyInput 'x' ⟨['1'], ['2'], '+', true⟩ = ⟨['1'], ['2'], '+', true⟩ :=
  C9_unknown_key_noop ⟨['1'], ['2'], '+', true⟩ 'x' (by decide) (by decide) (by decide)
    (by decide) (by decide) (by decide) (by decide)

/-- Claim C10: although digit entry admits only `'0'`-`'9'`, a successful
equals with the subtract operator whose right operand is numerically
larger than its left operand stores a negatively signed text in
`currentOperand` — `"1" setOperator(subtract) "5" equals` yields `"-4"` —
so after equals `currentOperand` may contain characters outside
`'0'`-`'9'`. -/
theorem C10_negative_result :
    (∀ s : CalcState,
      s.previousInput ≠ [] → s.currentInput ≠ [] → s.operation = '-' →
      (parseF s.previousInput).toRat < (parseF s.currentInput).toRat →
      ∃ t, (calculateResult s).currentInput = '-' :: t) ∧
    (runKeys ['1', 'B', '5', '#'] initState).currentInput = ['-', '4'] ∧
    ¬('0' ≤ ('-' : Char) ∧ ('-' : Char) ≤ '9') := by
  refine ⟨?_, by decide, by decide⟩
  intro s h1 h2 hop hlt
  rw [calculateResult_eq s h1 h2 (by rw [hop]; decide), hop]
  dsimp only
  rw [show applyOp '-' (parseF s.previousInput) (parseF s.currentInput)
      = Frac.sub (parseF s.previousInput) (parseF s.currentInput) from rfl]
  have hneg : (Frac.sub (parseF s.previousInput) (parseF s.currentInput)).num < 0 := by
    rw [← Frac.toRat_neg_iff, Frac.toRat_sub]
    exact sub_neg.mpr hlt
  unfold fmtFixed2
  rw [if_pos hneg]
  exact stripZeros_cons '-' _
    (by have := fmtFixed2Nonneg_length
          (Frac.neg (Frac.sub (parseF s.previousInput) (parseF s.currentInput)))
        omega)

theorem C10_witness :
    ∃ t, (calculateResult ⟨['5'], ['1'], '-', false⟩).currentInput = '-' :: t :=
  C10_negative_result.1 ⟨['5'], ['1'], '-', false⟩ (by decide) (by decide) rfl
    ((Frac.toRat_lt_iff (parseF ['1']) (parseF ['5'])).mpr (by decide))


end Calc
